import Mathlib

/-!
Verification of the Floriansylvain/compact-portfolio build-and-serve pipeline.

This file shallowly embeds the JavaScript code of `src/server.js` (and, where a
claim needs it, the near-duplicate class-based variant in `src/unnamed/part_001`,
embedded under the namespace `AssetProcessor`) into Lean:

* strings are modelled as Lean `String`/`List Char`; byte buffers as `List Nat`;
* JavaScript's unsigned 32-bit arithmetic is modelled as `Nat` arithmetic with
  explicit `% 4294967296`;
* each regular-expression `replace` of the minifiers is hand-compiled into an
  explicit left-to-right scanner with the same matching semantics (leftmost
  match, greedy/lazy quantifiers resolved as the JS engine resolves them for
  that concrete pattern, global continuation after the end of each match);
* the `while`/`for` loops of `minifyJS` are modelled index-for-index, with an
  explicit fuel argument so that termination of the source loops is a provable
  statement rather than an assumption (see the final termination theorem);
* external collaborators (node's `crypto` SHA-256, `zlib` compression, the file
  system) are abstracted as function parameters: `hash : String → String`,
  `compressor : String → Option String × Option String`,
  `fs : String → Option String`.
-/

namespace Portfolio

/-- The JavaScript `\s` whitespace class (the members relevant to this
code base; all inputs handled by the pipeline are ASCII/Latin text). -/
def jsWsChars : List Char :=
  [' ', '\t', '\n', '\x0b', '\x0c', '\r', '\u00a0', '\u1680',
   '\u2000', '\u2001', '\u2002', '\u2003', '\u2004', '\u2005', '\u2006',
   '\u2007', '\u2008', '\u2009', '\u200a', '\u2028', '\u2029', '\u202f',
   '\u205f', '\u3000', '\ufeff']

/-- Models `/\s/.test c` -/
def isWs (c : Char) : Bool := jsWsChars.contains c

/-- The JavaScript `\w` word-character class `[A-Za-z0-9_]`. -/
def isWordChar (c : Char) : Bool := c.isAlphanum || c == '_'

/-- Models `String.prototype.trim` (both ends, `\s` class). -/
def trimWsList (cs : List Char) : List Char :=
  ((cs.dropWhile isWs).reverse.dropWhile isWs).reverse

/-- Models `s.trim()` -/
def jsTrim (s : String) : String := String.mk (trimWsList s.toList)

/-- Literal prefix test. -/
def listStartsWith (pat cs : List Char) : Bool :=
  match pat, cs with
  | [], _ => true
  | _ :: _, [] => false
  | p :: ps, c :: cs => p == c && listStartsWith ps cs

/-- Index of the first occurrence of a literal sublist. -/
def idxOf (pat : List Char) : List Char → Option Nat
  | [] => if listStartsWith pat [] then some 0 else none
  | c :: rest =>
    if listStartsWith pat (c :: rest) then some 0
    else (idxOf pat rest).map (· + 1)

/-- Left-to-right, non-overlapping replacement of every occurrence of a
(nonempty) literal pattern — `s.replace(/LITERAL/g, rep)`. After a match the
scan resumes after the matched text; on a mismatch it advances one
character. `fuel = length + 1` suffices. -/
def replaceAllGo (pat rep : List Char) : Nat → List Char → List Char
  | 0, cs => cs
  | _ + 1, [] => []
  | fuel + 1, c :: cs =>
    if pat.length > 0 && listStartsWith pat (c :: cs) then
      rep ++ replaceAllGo pat rep fuel ((c :: cs).drop pat.length)
    else c :: replaceAllGo pat rep fuel cs

/-- String wrapper for `replaceAllGo`. -/
def replaceAllStr (s pat rep : String) : String :=
  String.mk (replaceAllGo pat.toList rep.toList (s.toList.length + 1) s.toList)

namespace Server

/-! ### `etag` — `src/server.js` lines 370-377

```js
function etag(buf) {
    let h = 2166136261 >>> 0;
    for (let i = 0; i < buf.length; i++) {
        h ^= buf[i];
        h = Math.imul(h, 16777619);
    }
    return 'W/"' + (h >>> 0).toString(16) + "-" + buf.length + '"';
}
```

`h ^= buf[i]; h = Math.imul(h, 16777619)` on a byte `buf[i] < 256` is exactly
unsigned 32-bit FNV-1a, i.e. `h := ((h ^^^ b) * 16777619) % 2^32`.
-/

/-- One FNV-1a step in unsigned 32-bit arithmetic. -/
def fnvStep (h b : Nat) : Nat := ((h ^^^ b) * 16777619) % 4294967296

/-- The `for` loop of `etag`, seed threaded explicitly. -/
def fnvLoop : Nat → List Nat → Nat
  | h, [] => h
  | h, b :: rest => fnvLoop (fnvStep h b) rest

/-- Hex digit of a value `< 16`, lowercase, as produced by
`Number.prototype.toString(16)`. -/
def hexDigit (n : Nat) : Char :=
  if n < 10 then Char.ofNat (48 + n) else Char.ofNat (87 + n)

/-- Core of the hex rendering; `fuel` bounds the recursion depth and
`fuel = n + 1` always suffices (each step divides by 16). -/
def toHexCore : Nat → Nat → List Char
  | 0, _ => []
  | fuel + 1, n =>
    if n < 16 then [hexDigit n] else toHexCore fuel (n / 16) ++ [hexDigit (n % 16)]

/-- Models `n.toString(16)` for an unsigned value: lowercase hex, no leading zeros,
no padding (`0` renders as `"0"`). -/
def toHex (n : Nat) : String := String.mk (toHexCore (n + 1) n)

/-- Models `etag(buf)` over a byte list. -/
def etag (buf : List Nat) : String :=
  let h := fnvLoop 2166136261 buf
  "W/\"" ++ toHex h ++ "-" ++ toString buf.length ++ "\""

/-- Bytes of a string (the pipeline's payloads are ASCII, where UTF-8 bytes
coincide with code points). -/
def strBytes (s : String) : List Nat := s.toList.map Char.toNat

/-- Models `etag` applied to a string body. -/
def etagStr (s : String) : String := etag (strBytes s)

/-! ### `minifyJS` — `src/server.js` lines 199-336

The source makes two index-based scanning passes over the text (pass 1 strips
comments while copying string/template literals verbatim; pass 2 collapses
whitespace and trims whitespace next to operators, again copying literal
regions verbatim) and then applies a chain of global regex replaces.

Both passes are modelled index-for-index with an explicit `fuel` argument
(`none` = fuel exhausted). The termination theorem at the end of this file
shows `fuel = length + 1` always suffices, because every iteration of either
loop strictly advances the index. -/

/-- Models `[=;:,{}()<>+\-*\/\?|&!]` — the operator/punctuation class of pass 2. -/
def isPunct (c : Char) : Bool :=
  ['=', ';', ':', ',', '\x7b', '\x7d', '(', ')', '<', '>',
   '+', '-', '*', '/', '?', '|', '&', '!'].contains c

/-- Models `/[a-zA-Z0-9_$]/.test x` where `x` is `out[k]`/`finalOut[...]`, possibly
`undefined`. When the operand is `undefined`, JavaScript coerces it to the
string `"undefined"`, which does contain word characters, so the test yields
`true`; hence the `none` case is `true`. -/
def wordTest : Option Char → Bool
  | none => true
  | some c => c.isAlphanum || c == '_' || c == '$'

/-- Inner loop of the block-comment branch of pass 1:
`while (i < n && !(src[i] === "*" && src[i+1] === "/")) i++;` — returns the
stopping index. `fuel = src.length` iterations always suffice since the loop
stops once `i ≥ src.length`. -/
def blockEndGo (src : List Char) : Nat → Nat → Nat
  | 0, i => i
  | fuel + 1, i =>
    if i < src.length && !(src.get? i == some '*' && src.get? (i + 1) == some '/') then
      blockEndGo src fuel (i + 1)
    else i

def blockEnd (src : List Char) (i : Nat) : Nat := blockEndGo src src.length i

/-- Inner loop of the line-comment branch of pass 1:
`while (i < n && src[i] !== "\n") i++;` — returns the stopping index. -/
def lineEndGo (src : List Char) : Nat → Nat → Nat
  | 0, i => i
  | fuel + 1, i =>
    if i < src.length && !(src.get? i == some '\n') then
      lineEndGo src fuel (i + 1)
    else i

def lineEnd (src : List Char) (i : Nat) : Nat := lineEndGo src src.length i

/-- Pass 1 of `minifyJS` (lines 208-261): strip block and line comments,
copying string and template literals verbatim. The accumulator holds the
output in reverse. On string/template exit the source also clears `strQuote`
to `""`; the variable is only ever read while `inStr` is set, so it is left
unchanged here. -/
def pass1 (src : List Char) :
    Nat → Nat → Bool → Char → Bool → Bool → List Char → Option (List Char)
  | 0, _, _, _, _, _, _ => none
  | fuel + 1, i, inStr, strQuote, inTemplate, esc, acc =>
    match src.get? i with
    | none => some acc.reverse
    | some ch =>
      if inStr then
        let exit := !esc && ch == strQuote
        pass1 src fuel (i + 1) (!exit) strQuote inTemplate (!esc && ch == '\\') (ch :: acc)
      else if inTemplate then
        let exit := !esc && ch == '\x60'
        pass1 src fuel (i + 1) inStr strQuote (!exit) (!esc && ch == '\\') (ch :: acc)
      else if ch == '"' || ch == '\x27' then
        pass1 src fuel (i + 1) true ch inTemplate esc (ch :: acc)
      else if ch == '\x60' then
        pass1 src fuel (i + 1) inStr strQuote true esc (ch :: acc)
      else if ch == '/' && src.get? (i + 1) == some '*' then
        pass1 src fuel (blockEnd src (i + 2) + 2) inStr strQuote inTemplate esc acc
      else if ch == '/' && src.get? (i + 1) == some '/' then
        pass1 src fuel (lineEnd src (i + 2)) inStr strQuote inTemplate esc acc
      else
        pass1 src fuel (i + 1) inStr strQuote inTemplate esc (ch :: acc)

/-- Models `let k = j + 1; while (k < out.length && /\s/.test(out[k])) k++;` -/
def wsEnd (out : List Char) (k : Nat) : Nat :=
  k + ((out.drop k).takeWhile isWs).length

/-- Pass 2 of `minifyJS` (lines 263-325): collapse whitespace runs (kept as a
single space only between word characters), strip a space preceding an
operator, copy string/template literals verbatim. The source also tests
`prev === "return"`; `prev` is a single character (or `undefined`), never the
six-character string `"return"`, so that disjunct is identically false and is
omitted. The accumulator holds `finalOut` in reverse, so `finalOut`'s last
character is the head and `finalOut.slice(0, -1)` is the tail. -/
def pass2 (out : List Char) :
    Nat → Nat → Bool → Char → Bool → Bool → List Char → Option (List Char)
  | 0, _, _, _, _, _, _ => none
  | fuel + 1, j, inStr, strQuote, inTemplate, esc, facc =>
    match out.get? j with
    | none => some facc.reverse
    | some ch =>
      if inStr then
        let exit := !esc && ch == strQuote
        pass2 out fuel (j + 1) (!exit) strQuote inTemplate (!esc && ch == '\\') (ch :: facc)
      else if inTemplate then
        let exit := !esc && ch == '\x60'
        pass2 out fuel (j + 1) inStr strQuote (!exit) (!esc && ch == '\\') (ch :: facc)
      else if ch == '"' || ch == '\x27' then
        pass2 out fuel (j + 1) true ch inTemplate esc (ch :: facc)
      else if ch == '\x60' then
        pass2 out fuel (j + 1) inStr strQuote true esc (ch :: facc)
      else if isWs ch then
        let k := wsEnd out (j + 1)
        let keep := wordTest facc.head? && wordTest (out.get? k)
        pass2 out fuel k inStr strQuote inTemplate esc (if keep then ' ' :: facc else facc)
      else
        let facc1 := if isPunct ch && facc.head? == some ' ' then facc.tail else facc
        pass2 out fuel (j + 1) inStr strQuote inTemplate esc (ch :: facc1)

/-- Models `[a-zA-Z_$]` -/
def isIdentStart (c : Char) : Bool := c.isAlpha || c == '_' || c == '$'

/-- Models `[a-zA-Z0-9_$]` -/
def isIdentChar (c : Char) : Bool := c.isAlphanum || c == '_' || c == '$'

/-- Models `.replace(/\["([a-zA-Z_$][a-zA-Z0-9_$]*)"\]/g, ".$1")` (line 334) —
rewrite bracket access with a double-quoted identifier-shaped key to dot
access. `fuel = length + 1` suffices: every step consumes at least one
character. -/
def brRewrite : Nat → List Char → List Char
  | 0, cs => cs
  | _ + 1, [] => []
  | fuel + 1, '[' :: '"' :: rest =>
    match rest with
    | c :: _ =>
      if isIdentStart c then
        let id := rest.takeWhile isIdentChar
        match rest.drop id.length with
        | '"' :: ']' :: rest2 => '.' :: (id ++ brRewrite fuel rest2)
        | _ => '[' :: brRewrite fuel ('"' :: rest)
      else '[' :: brRewrite fuel ('"' :: rest)
    | [] => '[' :: brRewrite fuel ('"' :: rest)
  | fuel + 1, c :: rest => c :: brRewrite fuel rest

/-- The final replace chain of `minifyJS` (lines 327-335), in source order:
`/\r?\n/g → ""` (a lone `\r` is kept; sequential removal of `"\r\n"` then
`"\n"` removes exactly every `\n` together with an immediately preceding
`\r`), `/;}/g → "}"`, `/===true/g → ""`, `/!==false/g → ""`, `/==true/g → ""`,
`/!=false/g → ""`, the bracket-access rewrite, `.trim()`. -/
def finalChain (s : String) : String :=
  let s1 := replaceAllStr (replaceAllStr s "\r\n" "") "\n" ""
  let s2 := replaceAllStr s1 ";\x7d" "\x7d"
  let s3 := replaceAllStr s2 "===true" ""
  let s4 := replaceAllStr s3 "!==false" ""
  let s5 := replaceAllStr s4 "==true" ""
  let s6 := replaceAllStr s5 "!=false" ""
  let s7 := String.mk (brRewrite (s6.toList.length + 1) s6.toList)
  jsTrim s7

/-- Models `minifyJS` with the two passes run on fuel `length + 1`; `none` would mean
a pass failed to terminate within its fuel, which the termination theorem
rules out. -/
def minifyJSOpt (src : String) : Option String :=
  let cs := src.toList
  match pass1 cs (cs.length + 1) 0 false ' ' false false [] with
  | none => none
  | some out =>
    match pass2 out (out.length + 1) 0 false ' ' false false [] with
    | none => none
    | some f => some (finalChain (String.mk f))

/-- Models `minifyJS` — `src/server.js` lines 199-336. -/
def minifyJS (src : String) : String := (minifyJSOpt src).getD ""

end Server

/-! ### A generic scanner combinator for global regex replacement

`scanRw tryFn` models `String.prototype.replace(regex, ...)` with the `g`
flag for a pattern compiled by hand into `tryFn`: at each position, `tryFn`
receives the character preceding the position (for `\b` assertions; `none` at
the start of the string) and the remaining input, and returns
`some (replacement, consumed)` when the pattern matches there (`consumed ≥ 1`
characters of the input are covered by the match) or `none` when it does not.
On a match the scan emits the replacement and continues after the match — in
the original input, exactly as the JS engine does (replacements are never
rescanned); on a failure it emits one character and retries at the next
position. `fuel = length + 1` suffices since every step consumes at least one
character. -/

def scanRw (tryFn : Option Char → List Char → Option (List Char × Nat)) :
    Nat → Option Char → List Char → List Char
  | 0, _, cs => cs
  | _ + 1, _, [] => []
  | fuel + 1, prev, c :: cs =>
    match tryFn prev (c :: cs) with
    | some (rep, k) =>
      rep ++ scanRw tryFn fuel (((c :: cs).take k).getLast?) ((c :: cs).drop k)
    | none => c :: scanRw tryFn fuel (some c) cs

/-- Run a hand-compiled global replace over a whole string. -/
def runScan (tryFn : Option Char → List Char → Option (List Char × Nat))
    (cs : List Char) : List Char :=
  scanRw tryFn (cs.length + 1) none cs

/-- Models `parseInt` on a run of decimal digits. -/
def digitsToNat (ds : List Char) : Nat :=
  ds.foldl (fun n c => n * 10 + (c.toNat - 48)) 0

/-- Split on whitespace runs, dropping empty pieces — `trimmed.split(/\s+/)`
for a trimmed input (for which JS produces no empty pieces either). -/
def splitWs : List Char → List (List Char)
  | [] => []
  | c :: rest =>
    if isWs c then splitWs rest
    else
      let w := rest.takeWhile (fun x => !isWs x)
      (c :: w) :: splitWs (rest.drop w.length)
termination_by cs => cs.length
decreasing_by
  · simp_wf
  · simp_wf
    have := List.length_drop w.length rest
    omega

namespace Server

/-! ### `minifyCSS` — `src/server.js` lines 92-175

Each `.replace` of the chain is compiled to a `tryFn` for `scanRw`, in source
order. Comments on each step note how the greedy/lazy quantifiers and
backtracking of the concrete JS pattern resolve. -/

/-- Models `/\/\*[\s\S]*?\*\//g → ""` — a `/*` with a later
`*/` is removed up to the first such `*/`; an unclosed `/*` matches nothing
and is kept. -/
def cssCommentTry (_ : Option Char) (cs : List Char) : Option (List Char × Nat) :=
  if listStartsWith ['/', '*'] cs then
    match idxOf ['*', '/'] (cs.drop 2) with
    | some i => some ([], 2 + i + 2)
    | none => none
  else none

/-- Models `/\s+/g → " "` — a maximal whitespace run collapses to one space. -/
def wsRunTry (_ : Option Char) (cs : List Char) : Option (List Char × Nat) :=
  match cs with
  | c :: _ =>
    if isWs c then some ([' '], (cs.takeWhile isWs).length) else none
  | [] => none

/-- Models `/\s*(P)\s*/g → "$1"` for a punctuation class `P` (the quantifiers are
greedy; `\s` and `P` are disjoint, so the match is the maximal whitespace run,
the punctuation character, and the maximal following whitespace run). -/
def punctTry (puncts : List Char) (_ : Option Char) (cs : List Char) :
    Option (List Char × Nat) :=
  match cs with
  | [] => none
  | c :: rest =>
    if puncts.contains c then
      some ([c], 1 + (rest.takeWhile isWs).length)
    else if isWs c then
      let w := (cs.takeWhile isWs).length
      match cs.drop w with
      | p :: r2 =>
        if puncts.contains p then some ([p], w + 1 + (r2.takeWhile isWs).length)
        else none
      | [] => none
    else none

/-- The class `[{}:;,>+~\(\)\[\]'"*\/]` of line 96. -/
def cssPunct : List Char :=
  ['\x7b', '\x7d', ':', ';', ',', '>', '+', '~', '(', ')', '[', ']',
   '\x27', '"', '*', '/']

/-- The unit alternation `(px|em|rem|vh|vw|%|s|ms)` of line 98, in source
order (the regex engine tries alternatives left to right). -/
def cssUnits : List (List Char) :=
  [['p', 'x'], ['e', 'm'], ['r', 'e', 'm'], ['v', 'h'], ['v', 'w'],
   ['%'], ['s'], ['m', 's']]

/-- Models `\b` after the matched unit: the assertion holds iff exactly one side is
a word character. The last character of every unit except `%` is a letter, so
the boundary needs a non-word (or absent) next character; after `%` (not a
word character) it needs a word next character. -/
def unitBoundaryAfter (u : List Char) (next : Option Char) : Bool :=
  match u.getLast? with
  | none => false
  | some lastc =>
    match next with
    | none => isWordChar lastc
    | some nc => isWordChar lastc != isWordChar nc

/-- First unit (in alternation order) that is a prefix of `cs` and satisfies
the trailing `\b`. -/
def firstUnit : List (List Char) → List Char → Option (List Char)
  | [], _ => none
  | u :: us, cs =>
    if listStartsWith u cs && unitBoundaryAfter u (cs.drop u.length).head? then
      some u
    else firstUnit us cs

/-- Models `/\b0+(px|em|rem|vh|vw|%|s|ms)\b/g → "0"` (line 98). The leading `\b`
requires a non-word (or absent) preceding character. -/
def zeroUnitTry (prev : Option Char) (cs : List Char) : Option (List Char × Nat) :=
  let boundaryBefore := match prev with | none => true | some p => !isWordChar p
  if !boundaryBefore then none
  else
    let zeros := cs.takeWhile (· == '0')
    if zeros.length == 0 then none
    else
      match firstUnit cssUnits (cs.drop zeros.length) with
      | some u => some (['0'], zeros.length + u.length)
      | none => none

/-- Models `/\b0+\.(\d+)/g → ".$1"` (line 99) — `0.5 -> .5`. -/
def zeroDotTry (prev : Option Char) (cs : List Char) : Option (List Char × Nat) :=
  let boundaryBefore := match prev with | none => true | some p => !isWordChar p
  if !boundaryBefore then none
  else
    let zeros := cs.takeWhile (· == '0')
    if zeros.length == 0 then none
    else
      match cs.drop zeros.length with
      | '.' :: r2 =>
        let ds := r2.takeWhile Char.isDigit
        if ds.length == 0 then none
        else some ('.' :: ds, zeros.length + 1 + ds.length)
      | _ => none

/-- Models `[0-9a-fA-F]` -/
def isHexDigitJs (c : Char) : Bool :=
  c.isDigit || ('a' ≤ c && c ≤ 'f') || ('A' ≤ c && c ≤ 'F')

/-- Models `/#([0-9a-fA-F])\1([0-9a-fA-F])\2([0-9a-fA-F])\3\b/g → "#$1$2$3"`
(line 100) — the backreferences force the two characters of each pair to be
identical (case-sensitively); the trailing `\b` follows a hex digit (a word
character), so it needs a non-word or absent next character. -/
def hexShortTry (_ : Option Char) (cs : List Char) : Option (List Char × Nat) :=
  match cs with
  | '#' :: h1 :: h2 :: h3 :: h4 :: h5 :: h6 :: rest =>
    if isHexDigitJs h1 && h1 == h2 && isHexDigitJs h3 && h3 == h4 &&
       isHexDigitJs h5 && h5 == h6 &&
       (match rest.head? with | none => true | some nc => !isWordChar nc) then
      some (['#', h1, h3, h5], 7)
    else none
  | _ => none

/-- Models `parseInt(n).toString(16).padStart(2, "0")` — `padStart` pads to at least
two characters and never truncates. -/
def hexPad2 (n : Nat) : List Char :=
  let h := toHexCore (n + 1) n
  if h.length < 2 then List.replicate (2 - h.length) '0' ++ h else h

/-- Models `/rgb\(\s*(\d+)\s*,\s*(\d+)\s*,\s*(\d+)\s*\)/g` with the hex-conversion
callback (lines 101-107). -/
def rgbTry (_ : Option Char) (cs : List Char) : Option (List Char × Nat) :=
  if !listStartsWith ['r', 'g', 'b', '('] cs then none
  else
    let r0 := (cs.drop 4).dropWhile isWs
    let d1 := r0.takeWhile Char.isDigit
    if d1.length == 0 then none else
    match (r0.drop d1.length).dropWhile isWs with
    | ',' :: r1 =>
      let r1b := r1.dropWhile isWs
      let d2 := r1b.takeWhile Char.isDigit
      if d2.length == 0 then none else
      match (r1b.drop d2.length).dropWhile isWs with
      | ',' :: r2 =>
        let r2b := r2.dropWhile isWs
        let d3 := r2b.takeWhile Char.isDigit
        if d3.length == 0 then none else
        match (r2b.drop d3.length).dropWhile isWs with
        | ')' :: r3 =>
          some ('#' :: (hexPad2 (digitsToNat d1) ++ hexPad2 (digitsToNat d2)
                 ++ hexPad2 (digitsToNat d3)), cs.length - r3.length)
        | _ => none
      | _ => none
    | _ => none

/-- Models `/calc\(\s*([^)]+)\s*\)/g` with callback
`calc(${expr.replace(/\s+/g, "")})` (lines 108-110). `[^)]+` cannot cross
`)`, so the match spans to the first `)`; the callback then deletes every
whitespace character of the captured text, so the replacement is `calc(`,
the text between the parentheses with all whitespace removed, `)`. -/
def calcTry (_ : Option Char) (cs : List Char) : Option (List Char × Nat) :=
  if !listStartsWith ['c', 'a', 'l', 'c', '('] cs then none
  else
    let t := (cs.drop 5).takeWhile (fun c => !(c == ')'))
    if t.length == 0 then none
    else
      match (cs.drop 5).drop t.length with
      | ')' :: _ =>
        some (('c' :: 'a' :: 'l' :: 'c' :: '(' :: t.filter (fun c => !isWs c))
               ++ [')'], 5 + t.length + 1)
      | _ => none

/-- Models `/(['"])([a-zA-Z0-9\-_]+)\1/g` with the unquoting callback
(lines 111-114): drop the quotes when the value matches
`^[a-zA-Z\-_][a-zA-Z0-9\-_]*$` (i.e. does not start with a digit), keep the
original text otherwise. The closing quote is the backreference `\1`, so it
must equal the opening quote. -/
def cssQuoteTry (_ : Option Char) (cs : List Char) : Option (List Char × Nat) :=
  match cs with
  | q :: rest =>
    if q == '\x27' || q == '"' then
      let val := rest.takeWhile (fun c => c.isAlphanum || c == '-' || c == '_')
      if val.length == 0 then none
      else
        match rest.drop val.length with
        | q2 :: _ =>
          if q2 == q then
            let ok := match val with
              | c :: _ => c.isAlpha || c == '-' || c == '_'
              | [] => false
            some (if ok then val else q :: (val ++ [q]), val.length + 2)
          else none
        | [] => none
    else none
  | [] => none

/-- Models `c` is neither `{` nor `}`. -/
def nonBrace (c : Char) : Bool := !(c == '\x7b' || c == '\x7d')

/-- Models `/([^{}]+)\{([^}]*)\}([^{}]+)\{([^}]*)\}/g` with the duplicate-rule
merging callback (lines 115-121): two consecutive blocks with identical rule
bodies merge into one block with comma-joined selectors; otherwise the
callback returns the match unchanged (and the scan still continues after it).
All quantifiers stop at their excluded delimiter, so matching is
deterministic. -/
def dupRuleTry (_ : Option Char) (cs : List Char) : Option (List Char × Nat) :=
  let a := cs.takeWhile nonBrace
  if a.length == 0 then none else
  match cs.drop a.length with
  | '\x7b' :: r1 =>
    let b := r1.takeWhile (fun c => !(c == '\x7d'))
    match r1.drop b.length with
    | '\x7d' :: r2 =>
      let c2 := r2.takeWhile nonBrace
      if c2.length == 0 then none else
      match r2.drop c2.length with
      | '\x7b' :: r3 =>
        let d := r3.takeWhile (fun c => !(c == '\x7d'))
        match r3.drop d.length with
        | '\x7d' :: r4 =>
          let consumed := cs.length - r4.length
          if b == d then
            some (a ++ [','] ++ c2 ++ ['\x7b'] ++ b ++ ['\x7d'], consumed)
          else some (cs.take consumed, consumed)
        | _ => none
      | _ => none
    | _ => none
  | _ => none

/-- Models `/[^{}]+\{\s*\}/g → ""` (line 122) — remove a rule with an empty
(whitespace-only) body. -/
def emptyRuleTry (_ : Option Char) (cs : List Char) : Option (List Char × Nat) :=
  let a := cs.takeWhile nonBrace
  if a.length == 0 then none else
  match cs.drop a.length with
  | '\x7b' :: r1 =>
    match r1.dropWhile isWs with
    | '\x7d' :: r2 => some ([], cs.length - r2.length)
    | _ => none
  | _ => none

/-- Models `/(margin|padding):([^;]+)/g` with the shorthand-collapsing callback
(lines 123-134). -/
def marginPadTry (_ : Option Char) (cs : List Char) : Option (List Char × Nat) :=
  let prop :=
    if listStartsWith ['m', 'a', 'r', 'g', 'i', 'n'] cs then
      some ['m', 'a', 'r', 'g', 'i', 'n']
    else if listStartsWith ['p', 'a', 'd', 'd', 'i', 'n', 'g'] cs then
      some ['p', 'a', 'd', 'd', 'i', 'n', 'g']
    else none
  match prop with
  | none => none
  | some p =>
    match cs.drop p.length with
    | ':' :: r1 =>
      let vals := r1.takeWhile (fun c => !(c == ';'))
      if vals.length == 0 then none
      else
        let consumed := p.length + 1 + vals.length
        let parts := splitWs (trimWsList vals)
        let rep :=
          match parts with
          | [t, r, b, l] =>
            if t == r && r == b && b == l then p ++ [':'] ++ t
            else if t == b && r == l then p ++ [':'] ++ t ++ [' '] ++ r
            else cs.take consumed
          | [tb, lr] =>
            if tb == lr then p ++ [':'] ++ tb else cs.take consumed
          | _ => cs.take consumed
        some (rep, consumed)
    | _ => none

/-- Models `/border-radius:([^;]+)/g` with the all-equal collapsing callback
(lines 135-141). -/
def borderRadiusTry (_ : Option Char) (cs : List Char) : Option (List Char × Nat) :=
  let p := "border-radius:".toList
  if !listStartsWith p cs then none
  else
    let vals := (cs.drop p.length).takeWhile (fun c => !(c == ';'))
    if vals.length == 0 then none
    else
      let consumed := p.length + vals.length
      let parts := splitWs (trimWsList vals)
      let rep :=
        match parts with
        | p0 :: rest =>
          if parts.length == 4 && rest.all (fun x => x == p0) then
            "border-radius:".toList ++ p0
          else cs.take consumed
        | [] => cs.take consumed
      some (rep, consumed)

/-- The vendor-prefix removals of lines 142-150: a literal prefix such as
`-webkit-`, then one of the listed property names (alternatives tried in
source order), then `:`; replaced by the property name and `:`. -/
def pickVendorWord (preLen : Nat) (rest : List Char) :
    List (List Char) → Option (List Char × Nat)
  | [] => none
  | w :: ws =>
    if listStartsWith w rest then
      match rest.drop w.length with
      | ':' :: _ => some (w ++ [':'], preLen + w.length + 1)
      | _ => pickVendorWord preLen rest ws
    else pickVendorWord preLen rest ws

def vendorTry (pre : List Char) (words : List (List Char)) (_ : Option Char)
    (cs : List Char) : Option (List Char × Nat) :=
  if !listStartsWith pre cs then none
  else pickVendorWord pre.length (cs.drop pre.length) words

/-- Resolve `\s*([^,]+)` (or `\s*([^)]+)`) before a required delimiter: the
greedy `\s*` takes the maximal whitespace run and the group takes the rest up
to the delimiter; when that rest is empty the engine backtracks `\s*` by one
character, so the group becomes that single whitespace character; when the
whole text is empty the `+` fails. -/
def leadNorm (raw : List Char) : Option (List Char) :=
  let t := raw.dropWhile isWs
  if t.length != 0 then some t
  else
    match raw.getLast? with
    | some c => some [c]
    | none => none

/-- Models `/translate\(\s*([^,]+)\s*,\s*([^)]+)\s*\)/g → "translate($1,$2)"`
(lines 151-154). `[^,]+` runs to the first comma and `[^)]+` to the first
closing parenthesis; since both quantifiers are greedy and the following
`\s*` can match empty, the captures keep their trailing whitespace. -/
def translateTry (_ : Option Char) (cs : List Char) : Option (List Char × Nat) :=
  let name := "translate(".toList
  if !listStartsWith name cs then none
  else
    let r0 := cs.drop name.length
    let raw1 := r0.takeWhile (fun c => !(c == ','))
    match r0.drop raw1.length with
    | ',' :: r2 =>
      match leadNorm raw1 with
      | none => none
      | some g1 =>
        let raw2 := r2.takeWhile (fun c => !(c == ')'))
        match r2.drop raw2.length with
        | ')' :: r4 =>
          match leadNorm raw2 with
          | none => none
          | some g2 =>
            some ("translate(".toList ++ g1 ++ [','] ++ g2 ++ [')'],
                  cs.length - r4.length)
        | _ => none
    | _ => none

/-- Models `/scale\(\s*([^,]+)\s*,\s*([^)]+)\s*\)/g` with the callback collapsing
`scale(x,x)` to `scale(x)` (lines 155-157). -/
def scaleTry (_ : Option Char) (cs : List Char) : Option (List Char × Nat) :=
  let name := "scale(".toList
  if !listStartsWith name cs then none
  else
    let r0 := cs.drop name.length
    let raw1 := r0.takeWhile (fun c => !(c == ','))
    match r0.drop raw1.length with
    | ',' :: r2 =>
      match leadNorm raw1 with
      | none => none
      | some g1 =>
        let raw2 := r2.takeWhile (fun c => !(c == ')'))
        match r2.drop raw2.length with
        | ')' :: r4 =>
          match leadNorm raw2 with
          | none => none
          | some g2 =>
            let rep :=
              if g1 == g2 then "scale(".toList ++ g1 ++ [')']
              else "scale(".toList ++ g1 ++ [','] ++ g2 ++ [')']
            some (rep, cs.length - r4.length)
        | _ => none
    | _ => none

/-- Models `/@media\s+([^{]+)\s*\{/g → "@media $1{"` (line 158). When the character
after the whitespace run is already `{`, the engine backtracks `\s+` by one
so the group becomes a single whitespace character — possible only when the
run has at least two characters. -/
def mediaTry (_ : Option Char) (cs : List Char) : Option (List Char × Nat) :=
  let name := "@media".toList
  if !listStartsWith name cs then none
  else
    let r0 := cs.drop name.length
    let w := r0.takeWhile isWs
    if w.length == 0 then none
    else
      let r1 := r0.drop w.length
      let raw := r1.takeWhile (fun c => !(c == '\x7b'))
      if raw.length != 0 then
        match r1.drop raw.length with
        | '\x7b' :: r2 =>
          some ("@media ".toList ++ raw ++ ['\x7b'], cs.length - r2.length)
        | _ => none
      else
        match r1 with
        | '\x7b' :: r2 =>
          if w.length ≥ 2 then
            match w.getLast? with
            | some wc => some ("@media ".toList ++ [wc] ++ ['\x7b'],
                               cs.length - r2.length)
            | none => none
          else none
        | _ => none

/-- Models `/\s*,\s*/g → ","` — the inner replace of the gradient callbacks. -/
def commaTrim (args : List Char) : List Char :=
  runScan (punctTry [',']) args

/-- Models `/NAME-gradient\(\s*([^)]+)\s*\)/g` with the callback rejoining the
arguments with `,` after `args.replace(/\s*,\s*/g, ",")`
(lines 159-164). -/
def gradientTry (name : List Char) (_ : Option Char) (cs : List Char) :
    Option (List Char × Nat) :=
  if !listStartsWith (name ++ ['(']) cs then none
  else
    let r0 := cs.drop (name.length + 1)
    let raw := r0.takeWhile (fun c => !(c == ')'))
    match r0.drop raw.length with
    | ')' :: r2 =>
      match leadNorm raw with
      | none => none
      | some args =>
        some (name ++ ['('] ++ commaTrim args ++ [')'], cs.length - r2.length)
    | _ => none

/-- Models `/X\s+/g → "X"` for a single literal character `X`
(lines 165-167, 170-172). -/
def chWsTry (x : Char) (_ : Option Char) (cs : List Char) :
    Option (List Char × Nat) :=
  match cs with
  | c :: rest =>
    if c == x then
      let w := (rest.takeWhile isWs).length
      if w == 0 then none else some ([x], 1 + w)
    else none
  | [] => none

/-- Models `/\{\s+/g → "{"` (line 168) uses the same shape. `/\s+X/g → "X"`
(line 169 `\s+\}`, and `minifyHTML`'s `\s+>`): a maximal whitespace run
followed by the literal character. -/
def wsChTry (x : Char) (_ : Option Char) (cs : List Char) :
    Option (List Char × Nat) :=
  match cs with
  | c :: _ =>
    if isWs c then
      let w := (cs.takeWhile isWs).length
      match cs.drop w with
      | y :: _ => if y == x then some ([x], w + 1) else none
      | [] => none
    else none
  | [] => none

/-- Models `minifyCSS` — `src/server.js` lines 92-175: the full replace chain in
source order, then `/\r?\n/g → ""` and `.trim()`. -/
def minifyCSS (src : String) : String :=
  let cs0 := src.toList
  let c1 := runScan cssCommentTry cs0
  let c2 := runScan wsRunTry c1
  let c3 := runScan (punctTry cssPunct) c2
  let c4 := replaceAllGo [';', '\x7d'] ['\x7d'] (c3.length + 1) c3
  let c5 := runScan zeroUnitTry c4
  let c6 := runScan zeroDotTry c5
  let c7 := runScan hexShortTry c6
  let c8 := runScan rgbTry c7
  let c9 := runScan calcTry c8
  let c10 := runScan cssQuoteTry c9
  let c11 := runScan dupRuleTry c10
  let c12 := runScan emptyRuleTry c11
  let c13 := runScan marginPadTry c12
  let c14 := runScan borderRadiusTry c13
  let c15 := runScan (vendorTry "-webkit-".toList
    ["transform".toList, "transition".toList, "animation".toList,
     "box-shadow".toList, "border-radius".toList]) c14
  let c16 := runScan (vendorTry "-moz-".toList
    ["transform".toList, "transition".toList, "animation".toList,
     "box-shadow".toList, "border-radius".toList]) c15
  let c17 := runScan (vendorTry "-ms-".toList
    ["transform".toList, "transition".toList, "animation".toList]) c16
  let c18 := runScan translateTry c17
  let c19 := runScan scaleTry c18
  let c20 := runScan mediaTry c19
  let c21 := runScan (gradientTry "linear-gradient".toList) c20
  let c22 := runScan (gradientTry "radial-gradient".toList) c21
  let c23 := runScan (chWsTry ',') c22
  let c24 := runScan (chWsTry ':') c23
  let c25 := runScan (chWsTry ';') c24
  let c26 := runScan (chWsTry '\x7b') c25
  let c27 := runScan (wsChTry '\x7d') c26
  let c28 := runScan (chWsTry '>') c27
  let c29 := runScan (chWsTry '+') c28
  let c30 := runScan (chWsTry '~') c29
  let s := String.mk c30
  jsTrim (replaceAllStr (replaceAllStr s "\r\n" "") "\n" "")

end Server

/-- Case-insensitive literal prefix test (`pat` given lowercase; models the
`i` flag on a literal). -/
def ciStartsWith (pat cs : List Char) : Bool :=
  match pat, cs with
  | [], _ => true
  | _ :: _, [] => false
  | p :: ps, c :: cs => p == c.toLower && ciStartsWith ps cs

/-- Index of the first case-insensitive occurrence of a literal. -/
def idxOfCi (pat : List Char) : List Char → Option Nat
  | [] => if ciStartsWith pat [] then some 0 else none
  | c :: rest =>
    if ciStartsWith pat (c :: rest) then some 0
    else (idxOfCi pat rest).map (· + 1)

/-- Models `target.replace(pat, rep)` with a *string* pattern: replace the first
occurrence only; an empty pattern inserts at position 0. -/
def replaceFirstSub (pat rep target : List Char) : List Char :=
  match idxOf pat target with
  | some i => target.take i ++ rep ++ target.drop (i + pat.length)
  | none => target

namespace Server

/-! ### `minifyHTML` — `src/server.js` lines 177-197 -/

/-- Models `/<!--(?!\[if)[\s\S]*?-->/g → ""` — an HTML comment is removed up to the
first `-->` unless the text after `<!--` starts with `[if` (the negative
lookahead keeps conditional comments); an unclosed `<!--` matches nothing. -/
def htmlCommentTry (_ : Option Char) (cs : List Char) : Option (List Char × Nat) :=
  if listStartsWith "<!--".toList cs then
    if listStartsWith "[if".toList (cs.drop 4) then none
    else
      match idxOf "-->".toList (cs.drop 4) with
      | some i => some ([], 4 + i + 3)
      | none => none
  else none

/-- Models `/>\s+</g → "><"` — collapse whitespace between tags. -/
def interTagTry (_ : Option Char) (cs : List Char) : Option (List Char × Nat) :=
  match cs with
  | '>' :: rest =>
    let w := (rest.takeWhile isWs).length
    if w == 0 then none
    else
      match rest.drop w with
      | '<' :: _ => some (['>', '<'], 1 + w + 1)
      | _ => none
  | _ => none

/-- Models `/>\s+([^<]+?)\s+</g → ">$1<"`. The span between `>` and the *first*
following `<` must decompose as `\s+ C \s+` with `C` nonempty. The first
`\s+` being greedy takes the maximal leading whitespace run; the lazy group
then stops at the last non-whitespace character (the remainder must be all
whitespace), so the capture is the trimmed middle. When the whole span is
whitespace of length at least three, backtracking leaves a single whitespace
character (the second-to-last one) as the capture. -/
def textTrimTry (_ : Option Char) (cs : List Char) : Option (List Char × Nat) :=
  match cs with
  | '>' :: rest =>
    let t := rest.takeWhile (fun c => !(c == '<'))
    match rest.drop t.length with
    | '<' :: _ =>
      if t.all isWs then
        if t.length ≥ 3 then
          match (t.drop (t.length - 2)).head? with
          | some c => some (['>', c, '<'], 1 + t.length + 1)
          | none => none
        else none
      else
        let p := (t.takeWhile isWs).length
        let s := (t.reverse.takeWhile isWs).length
        if p ≥ 1 && s ≥ 1 then
          let mid := (t.drop p).take (t.length - p - s)
          some ('>' :: mid ++ ['<'], 1 + t.length + 1)
        else none
    | _ => none
  | _ => none

/-- Models `/<style[^>]*>([\s\S]*?)<\/style>/gi` with the callback
`m.replace(css, minifyCSS(css))` (lines 182-184): minify the first occurrence
of the captured inner text within the match (with an empty capture,
JavaScript's string `replace` inserts at position 0, which is a no-op here
since `minifyCSS("")` is empty). JavaScript would additionally expand
dollar-escapes occurring in the replacement string; the minified CSS of this
pipeline contains none, and the model inserts the text literally. -/
def styleMinTry (_ : Option Char) (cs : List Char) : Option (List Char × Nat) :=
  if ciStartsWith "<style".toList cs then
    let afterTag := cs.drop 6
    let hd := afterTag.takeWhile (fun c => !(c == '>'))
    match afterTag.drop hd.length with
    | '>' :: r3 =>
      match idxOfCi "</style>".toList r3 with
      | some k =>
        let mLen := 6 + hd.length + 1 + k + 8
        let m := cs.take mLen
        let css := r3.take k
        some (replaceFirstSub css (minifyCSS (String.mk css)).toList m, mLen)
      | none => none
    | _ => none
  else none

/-- The attribute-value callback class of line 186: one or more of
`a-zA-Z0-9`, dot, underscore, colon, slash, hyphen, anchored at both ends. -/
def isSafeAttrChar (c : Char) : Bool :=
  c.isAlphanum || ['.', '_', ':', '/', '-'].contains c

/-- Models `[\w-]` — attribute-name characters. -/
def isAttrNameChar (c : Char) : Bool := isWordChar c || c == '-'

/-- Models `/\s+([\w-]+)=["']([^"'\s<>]+)["']/g` with the unquoting callback
(lines 185-188): drop the quotes (and collapse the leading whitespace to one
space) when the value matches the safe class, keep the match otherwise. The
closing quote is `["']` — it need not equal the opening quote. -/
def attrUnquoteTry (_ : Option Char) (cs : List Char) : Option (List Char × Nat) :=
  match cs with
  | c :: _ =>
    if !isWs c then none
    else
      let w := (cs.takeWhile isWs).length
      let r1 := cs.drop w
      let attr := r1.takeWhile isAttrNameChar
      if attr.length == 0 then none
      else
        match r1.drop attr.length with
        | '=' :: q1 :: r2 =>
          if q1 == '"' || q1 == '\x27' then
            let val := r2.takeWhile (fun c =>
              !(c == '"' || c == '\x27' || c == '<' || c == '>') && !isWs c)
            if val.length == 0 then none
            else
              match r2.drop val.length with
              | q2 :: _ =>
                if q2 == '"' || q2 == '\x27' then
                  let consumed := w + attr.length + 2 + val.length + 1
                  if val.all isSafeAttrChar then
                    some (' ' :: attr ++ '=' :: val, consumed)
                  else some (cs.take consumed, consumed)
                else none
              | [] => none
          else none
        | _ => none
  | [] => none

/-- Models `/\s{2,}/g → " "` — a whitespace run of length at least two collapses to
one space. -/
def multiWsTry (_ : Option Char) (cs : List Char) : Option (List Char × Nat) :=
  match cs with
  | c :: _ =>
    if isWs c then
      let w := (cs.takeWhile isWs).length
      if w ≥ 2 then some ([' '], w) else none
    else none
  | [] => none

/-- Models `/<([^>]+)\s+>/g → "<$1>"` (line 192). `[^>]+` is greedy, so it keeps as
much as possible and concedes only a single whitespace character to `\s+`:
the match requires the text before `>` to end in whitespace and have length
at least two, and the replacement drops exactly one trailing character. -/
def tagSpaceTry (_ : Option Char) (cs : List Char) : Option (List Char × Nat) :=
  match cs with
  | '<' :: rest =>
    let c := rest.takeWhile (fun x => !(x == '>'))
    match rest.drop c.length with
    | '>' :: _ =>
      if c.length ≥ 2 then
        match c.getLast? with
        | some lc =>
          if isWs lc then some ('<' :: c.dropLast ++ ['>'], 1 + c.length + 1)
          else none
        | none => none
      else none
    | _ => none
  | _ => none

/-- Models `/\s+[\w-]+=["']["']/g → ""` (line 193) — remove an attribute with an
empty quoted value (the two quotes are independent `["']` classes). -/
def emptyAttrTry (_ : Option Char) (cs : List Char) : Option (List Char × Nat) :=
  match cs with
  | c :: _ =>
    if !isWs c then none
    else
      let w := (cs.takeWhile isWs).length
      let r1 := cs.drop w
      let attr := r1.takeWhile isAttrNameChar
      if attr.length == 0 then none
      else
        match r1.drop attr.length with
        | '=' :: q1 :: q2 :: _ =>
          if (q1 == '"' || q1 == '\x27') && (q2 == '"' || q2 == '\x27') then
            some ([], w + attr.length + 3)
          else none
        | _ => none
  | [] => none

/-- Models `/\s+type=["']text\/(javascript|css)["']/g → ""` (line 194). -/
def typeAttrTry (_ : Option Char) (cs : List Char) : Option (List Char × Nat) :=
  match cs with
  | c :: _ =>
    if !isWs c then none
    else
      let w := (cs.takeWhile isWs).length
      let r1 := cs.drop w
      if !listStartsWith "type=".toList r1 then none
      else
        match r1.drop 5 with
        | q1 :: r2 =>
          if q1 == '"' || q1 == '\x27' then
            if !listStartsWith "text/".toList r2 then none
            else
              let r3 := r2.drop 5
              let word :=
                if listStartsWith "javascript".toList r3 then some 10
                else if listStartsWith "css".toList r3 then some 3
                else none
              match word with
              | some wl =>
                match r3.drop wl with
                | q2 :: _ =>
                  if q2 == '"' || q2 == '\x27' then
                    some ([], w + 5 + 1 + 5 + wl + 1)
                  else none
                | [] => none
              | none => none
          else none
        | [] => none
  | [] => none

/-- Models `minifyHTML` — `src/server.js` lines 177-197: the replace chain in source
order, then `/\r?\n/g → ""` and `.trim()`. -/
def minifyHTML (src : String) : String :=
  let h1 := runScan htmlCommentTry src.toList
  let h2 := runScan interTagTry h1
  let h3 := runScan textTrimTry h2
  let h4 := runScan styleMinTry h3
  let h5 := runScan attrUnquoteTry h4
  let h6 := runScan (punctTry ['=']) h5
  let h7 := runScan (wsChTry '>') h6
  let h8 := runScan multiWsTry h7
  let h9 := runScan tagSpaceTry h8
  let h10 := runScan emptyAttrTry h9
  let h11 := runScan typeAttrTry h10
  let s := String.mk h11
  jsTrim (replaceAllStr (replaceAllStr s "\r\n" "") "\n" "")

/-! ### `extractInlineContent` — `src/server.js` lines 22-47 -/

/-- All matches of `/<script(?![^>]*src=)[^>]*>([\s\S]*?)<\/script>/gi`: an
opening `<script` (case-insensitive) whose tag head (the run of non-`>`
characters that follows) does not contain `src=`, a `>`, the lazy body up to
the first `</script>`, and that closing tag. Returns the full matched texts,
left to right, continuing after each match. `fuel = length + 1` suffices. -/
def scriptMatchesGo : Nat → List Char → List (List Char)
  | 0, _ => []
  | _ + 1, [] => []
  | fuel + 1, c :: rest =>
    if ciStartsWith "<script".toList (c :: rest) then
      let afterTag := (c :: rest).drop 7
      let hd := afterTag.takeWhile (fun x => !(x == '>'))
      if (idxOfCi "src=".toList hd).isSome then
        scriptMatchesGo fuel rest
      else
        match afterTag.drop hd.length with
        | '>' :: r3 =>
          match idxOfCi "</script>".toList r3 with
          | some k =>
            let mLen := 7 + hd.length + 1 + k + 9
            (c :: rest).take mLen :: scriptMatchesGo fuel ((c :: rest).drop mLen)
          | none => scriptMatchesGo fuel rest
        | _ => scriptMatchesGo fuel rest
    else scriptMatchesGo fuel rest

def scriptMatches (cs : List Char) : List (List Char) :=
  scriptMatchesGo (cs.length + 1) cs

/-- All matches of `/<style[^>]*>([\s\S]*?)<\/style>/gi` (no lookahead). -/
def styleMatchesGo : Nat → List Char → List (List Char)
  | 0, _ => []
  | _ + 1, [] => []
  | fuel + 1, c :: rest =>
    if ciStartsWith "<style".toList (c :: rest) then
      let afterTag := (c :: rest).drop 6
      let hd := afterTag.takeWhile (fun x => !(x == '>'))
      match afterTag.drop hd.length with
      | '>' :: r3 =>
        match idxOfCi "</style>".toList r3 with
        | some k =>
          let mLen := 6 + hd.length + 1 + k + 8
          (c :: rest).take mLen :: styleMatchesGo fuel ((c :: rest).drop mLen)
        | none => styleMatchesGo fuel rest
      | _ => styleMatchesGo fuel rest
    else styleMatchesGo fuel rest

def styleMatches (cs : List Char) : List (List Char) :=
  styleMatchesGo (cs.length + 1) cs

/-- Models `match.replace(/<WORD[^>]*>|<\/WORD>/gi, "")` — remove every opening tag
`<WORD...>` and every literal closing tag `</WORD>` (the first alternative is
tried first; it cannot match a closing tag since `/` differs from the first
letter of the word). -/
def stripTagTokens (word : List Char) : Nat → List Char → List Char
  | 0, cs => cs
  | _ + 1, [] => []
  | fuel + 1, c :: rest =>
    if ciStartsWith ('<' :: word) (c :: rest) then
      let afterTag := (c :: rest).drop (1 + word.length)
      let hd := afterTag.takeWhile (fun x => !(x == '>'))
      match afterTag.drop hd.length with
      | '>' :: r2 => stripTagTokens word fuel r2
      | _ => c :: stripTagTokens word fuel rest
    else if ciStartsWith ('<' :: '/' :: word ++ ['>']) (c :: rest) then
      stripTagTokens word fuel ((c :: rest).drop (2 + word.length + 1))
    else c :: stripTagTokens word fuel rest

/-- The trimmed inner content of each inline `<script>`-without-`src` of the
document, in order (before the non-empty filter). -/
def scriptContentsRaw (html : String) : List String :=
  (scriptMatches html.toList).map (fun m =>
    jsTrim (String.mk (stripTagTokens "script".toList (m.length + 1) m)))

/-- The trimmed inner content of each `<style>` of the document, in order. -/
def styleContentsRaw (html : String) : List String :=
  (styleMatches html.toList).map (fun m =>
    jsTrim (String.mk (stripTagTokens "style".toList (m.length + 1) m)))

/-- The non-empty trimmed inline script bodies — exactly those whose hashes
`extractInlineContent` records. -/
def scriptContents (html : String) : List String :=
  (scriptContentsRaw html).filter (fun s => !(s == ""))

/-- The non-empty trimmed inline style bodies. -/
def styleContents (html : String) : List String :=
  (styleContentsRaw html).filter (fun s => !(s == ""))

/-- Models `Set.add` — insertion-ordered, deduplicating. -/
def addUnique (l : List String) (s : String) : List String :=
  if l.contains s then l else l ++ [s]

/-- Models `extractInlineContent(html)` (lines 22-47) with the SHA-256 digest
abstracted as `hash`: the resulting `(cspHashes.scripts, cspHashes.styles)`
sets as insertion-ordered lists of `'sha256-...'` tokens. -/
def extractInlineContent (hash : String → String) (html : String) :
    List String × List String :=
  ((scriptContents html).foldl
     (fun acc c => addUnique acc ("\x27sha256-" ++ hash c ++ "\x27")) [],
   (styleContents html).foldl
     (fun acc c => addUnique acc ("\x27sha256-" ++ hash c ++ "\x27")) [])

/-! ### `generateCSP` — `src/server.js` lines 49-90 -/

/-- Lines 53-67 apply the same construction to both directives: start from
`'self'`, append the space-joined sources when there are any, and append
`'unsafe-inline'` when there are none — for scripts as well as styles. -/
def srcWithFallback (sources : List String) : String :=
  "\x27self\x27"
    ++ (if sources.length > 0 then " " ++ String.intercalate " " sources else "")
    ++ (if sources.length == 0 then " \x27unsafe-inline\x27" else "")

/-- Models `generateCSP()` over the accumulated script/style token lists. -/
def generateCSP (scriptSources styleSources : List String) : String :=
  String.intercalate "; "
    ["default-src \x27self\x27",
     "script-src " ++ srcWithFallback scriptSources,
     "style-src " ++ srcWithFallback styleSources,
     "img-src \x27self\x27 data: https:",
     "font-src \x27self\x27",
     "connect-src \x27self\x27",
     "media-src \x27self\x27",
     "object-src \x27none\x27",
     "child-src \x27none\x27",
     "worker-src \x27none\x27",
     "frame-ancestors \x27none\x27",
     "form-action \x27self\x27",
     "base-uri \x27self\x27",
     "manifest-src \x27self\x27"]

/-! ### Content types, cache control — `src/server.js` lines 340-368 -/

/-- Models `path.extname(fp).toLowerCase()` for the simple relative paths of the
manifest: the suffix from the last dot of the last path segment. -/
def extnameLower (fp : String) : String :=
  let cs := fp.toList.reverse
  let seg := cs.takeWhile (fun c => !(c == '/') && !(c == '\\'))
  match idxOf ['.'] seg with
  | some i =>
    if i + 1 == seg.length then ""  -- a leading dot names a dotfile, not an extension
    else String.mk ((('.' :: (seg.take i).reverse)).map Char.toLower)
  | none => ""

/-- Models `contentTypeFor` (lines 340-358). -/
def contentTypeFor (fp : String) : String :=
  let ext := extnameLower fp
  if ext == ".html" then "text/html; charset=utf-8"
  else if ext == ".css" then "text/css; charset=utf-8"
  else if ext == ".js" then "application/javascript; charset=utf-8"
  else if ext == ".webp" then "image/webp"
  else if ext == ".xml" then "application/xml; charset=utf-8"
  else if ext == ".txt" then "text/plain; charset=utf-8"
  else "application/octet-stream"

/-- Models `cacheControlFor` (lines 360-368). -/
def cacheControlFor (fp : String) : String :=
  let ext := extnameLower fp
  if ext == ".html" then "no-cache"
  else if ext == ".css" || ext == ".js" then "public, max-age=31536000, immutable"
  else if ext == ".webp" then "public, max-age=31536000, immutable"
  else if ext == ".xml" || ext == ".txt" then "public, max-age=3600"
  else "public, max-age=3600"

end Server

/-- The entry stored in the `files` map per served path (`src/server.js`
lines 460-471). `body` holds the canonical (minified) bytes, `br`/`gz` the
optional precompressed variants; each `...Etag` field is `undefined` (here
`none`) exactly when the variant is absent. The source also stores
`mtimeMs`, which no request handling reads; it is omitted. -/
structure AssetEntry where
  path : String
  type : String
  cache : String
  body : String
  etag : String
  br : Option String := none
  brEtag : Option String := none
  gz : Option String := none
  gzEtag : Option String := none
deriving Repr, DecidableEq

namespace Server

/-! ### Entry construction and the build — `src/server.js` lines 379-495

`preCompress` (zlib Brotli/Gzip, lines 379-416) is an external collaborator,
abstracted as `compressor : String → Option String × Option String` returning
the optional Brotli and Gzip bytes (either may be absent when compression
fails). The file system is `fs : String → Option String`; the SHA-256 of
node's `crypto` is `hash : String → String`. -/

/-- The object literal of lines 460-471: the canonical tag is the `etag` of
the body, and each compressed variant's tag is the `etag` of that variant's
own bytes when the variant is present (`compressed.br ? etag(compressed.br)
: undefined`). -/
def mkEntryParts (relPath body : String) (br gz : Option String) : AssetEntry :=
  { path := relPath
    type := contentTypeFor relPath
    cache := cacheControlFor relPath
    body := body
    etag := etagStr body
    br := br
    brEtag := br.map etagStr
    gz := gz
    gzEtag := gz.map etagStr }

/-- The pure part of `loadAndMinify` once the source text is read: minify
(when a minifier is given), compress, build the entry, and key it by
`"/" + relPath.replace(/\\/g, "/")` (line 473). -/
def loadAndMinifyEntry (compressor : String → Option String × Option String)
    (relPath src : String) (minify : Option (String → String)) :
    String × AssetEntry :=
  let body := match minify with
    | some m => m src
    | none => src
  let comp := compressor body
  ("/" ++ replaceAllStr relPath "\\" "/", mkEntryParts relPath body comp.1 comp.2)

/-- Models `loadAndMinify` (lines 418-474): `fs.promises.readFile` rejects when the
file is absent and the rejection propagates to the caller — modelled as
`Except.error relPath`. -/
def loadAndMinify (fs : String → Option String)
    (compressor : String → Option String × Option String)
    (relPath : String) (minify : Option (String → String)) :
    Except String (String × AssetEntry) :=
  match fs relPath with
  | none => Except.error relPath
  | some src => Except.ok (loadAndMinifyEntry compressor relPath src minify)

/-- Models `build()` (lines 476-495). The three main entries are awaited *without*
an existence check or any error handling, so a missing `index.html`,
`style.css` or `script.js` rejects the whole build; the four static assets
are guarded by `fs.existsSync`. The CSP is generated from the global hash
sets which `loadAndMinify` filled by calling `extractInlineContent` on the
*original* (pre-minification) text of `index.html` (line 424). -/
def build (hash : String → String) (fs : String → Option String)
    (compressor : String → Option String × Option String) :
    Except String (List (String × AssetEntry) × String) := do
  let ih ← loadAndMinify fs compressor "index.html" (some minifyHTML)
  let st ← loadAndMinify fs compressor "style.css" (some minifyCSS)
  let sc ← loadAndMinify fs compressor "script.js" (some minifyJS)
  let statics := ["favicon.webp", "profile.webp", "robots.txt", "sitemap.xml"]
    |>.filterMap (fun f =>
        (fs f).map (fun src => loadAndMinifyEntry compressor f src none))
  let sets := match fs "index.html" with
    | some src => extractInlineContent hash src
    | none => ([], [])
  return ([ih, st, sc] ++ statics, generateCSP sets.1 sets.2)

/-! ### Request handling — `src/server.js` lines 518-553 -/

/-- The request headers the serving path reads. `acceptEncoding` is
`req.headers["accept-encoding"]` (`none` = header absent, defaulted to `""`
by `negotiateEncoding`); `ifNoneMatch` is `req.headers["if-none-match"]`. -/
structure Request where
  acceptEncoding : Option String := none
  ifNoneMatch : Option String := none

/-- Models `/\bPAT\b/.test s` for a pattern made of word characters (`br`,
`gzip`): some occurrence of the literal has a non-word (or absent) character
on each side. -/
def hasWordTokenGo (pat : List Char) : Option Char → List Char → Bool
  | _, [] => false
  | prev, c :: rest =>
    ((match prev with | none => true | some p => !isWordChar p)
      && listStartsWith pat (c :: rest)
      && (match ((c :: rest).drop pat.length).head? with
          | none => true
          | some n => !isWordChar n))
    || hasWordTokenGo pat (some c) rest

def hasWordToken (pat s : String) : Bool :=
  hasWordTokenGo pat.toList none s.toList

/-- Models `negotiateEncoding(req)` (lines 518-523): `(hasBr, hasGz)`. -/
def negotiateEncoding (req : Request) : Bool × Bool :=
  let ae := req.acceptEncoding.getD ""
  (hasWordToken "br" ae, hasWordToken "gzip" ae)

/-- The response as observable through status, body and the headers the
serving path sets. -/
structure ServeResponse where
  status : Nat
  body : String
  contentType : String
  cacheControl : String
  vary : String
  contentEncoding : Option String
  etagHeader : Option String
deriving Repr, DecidableEq

/-- The body/tag/encoding selection of `serveEntry` (lines 531-543): prefer
Brotli, then Gzip, but only when the entry has the variant; otherwise the
uncompressed body with no `Content-Encoding`. The tag is the field stored
next to the chosen variant. -/
def selectVariant (req : Request) (e : AssetEntry) :
    String × Option String × Option String :=
  let enc := negotiateEncoding req
  if enc.1 && e.br.isSome then ((e.br).getD "", e.brEtag, some "br")
  else if enc.2 && e.gz.isSome then ((e.gz).getD "", e.gzEtag, some "gzip")
  else (e.body, some e.etag, none)

/-- Models `serveEntry` (lines 525-553). `Vary: Accept-Encoding` is set before any
branching, hence on every response. The conditional compares
`req.headers["if-none-match"] === tag` with JavaScript strict equality, under
which two `undefined` sides are equal — modelled as `Option` equality. On a
match: status 304 with an empty body; otherwise status 200 with the selected
body. The `ETag` header carries the selected tag in both cases. -/
def serveEntry (req : Request) (e : AssetEntry) : ServeResponse :=
  let sel := selectVariant req e
  if req.ifNoneMatch == sel.2.1 then
    { status := 304, body := "", contentType := e.type, cacheControl := e.cache,
      vary := "Accept-Encoding", contentEncoding := sel.2.2,
      etagHeader := sel.2.1 }
  else
    { status := 200, body := sel.1, contentType := e.type,
      cacheControl := e.cache, vary := "Accept-Encoding",
      contentEncoding := sel.2.2, etagHeader := sel.2.1 }

end Server

namespace AssetProcessor

/-! ### The class-based variant — `src/unnamed/part_001`

Only its CSP generation differs materially from `src/server.js` for the
claims at hand: `generateCSP` (part_001 lines 83-119) gives the
`'unsafe-inline'` fallback to the *style* directives only, and also emits
`script-src-elem`/`style-src-elem` twins and `upgrade-insecure-requests`. -/

/-- Models `(h) => `'sha256-${h}'`` — part_001 keeps raw digests in its sets and
wraps them here. -/
def token (h : String) : String := "\x27sha256-" ++ h ++ "\x27"

/-- Models `scriptSrc` (part_001 lines 91-93): `'self'` plus the space-joined hash
tokens when there are any — and nothing else when there are none. -/
def scriptSrcOf (hs : List String) : String :=
  "\x27self\x27"
    ++ (if (hs.map token).length > 0 then
          " " ++ String.intercalate " " (hs.map token)
        else "")

/-- Models `styleSrc` (part_001 lines 94-98): `'self'` plus the space-joined hash
tokens, or `'unsafe-inline'` as the fallback when there are none. -/
def styleSrcOf (hs : List String) : String :=
  "\x27self\x27"
    ++ (if (hs.map token).length > 0 then
          " " ++ String.intercalate " " (hs.map token)
        else " \x27unsafe-inline\x27")

/-- Models `generateCSP()` (part_001 lines 83-119) over the accumulated script and
style digest lists. -/
def generateCSP (scriptHashes styleHashes : List String) : String :=
  String.intercalate "; "
    ["default-src \x27self\x27",
     "script-src " ++ scriptSrcOf scriptHashes,
     "script-src-elem " ++ scriptSrcOf scriptHashes,
     "style-src " ++ styleSrcOf styleHashes,
     "style-src-elem " ++ styleSrcOf styleHashes,
     "img-src \x27self\x27 https: data:",
     "font-src \x27self\x27",
     "connect-src \x27self\x27",
     "media-src \x27self\x27 data:",
     "object-src \x27none\x27",
     "child-src \x27none\x27",
     "worker-src \x27none\x27",
     "frame-ancestors \x27none\x27",
     "form-action \x27self\x27",
     "base-uri \x27self\x27",
     "manifest-src \x27self\x27",
     "upgrade-insecure-requests"]

end AssetProcessor

namespace Server

/-- The `index.html` branch of `loadAndMinify` (lines 418-427): line 424
calls `extractInlineContent(originalContent)` on the text as read, and only
afterwards line 427 computes the stored body as `minify(originalContent)`.
The pair is (the style bodies whose hashes enter the CSP, the body that will
be served). -/
def indexBuildStep (src : String) : List String × String :=
  (styleContents src, minifyHTML src)

end Server

/-! ### Concrete fixtures used by the theorems below -/

/-- An `index.html` whose inline style text changes under minification
(`a{b;;}` becomes `a{b;}`). -/
def cOneHtml : String := "<html><style>a\x7bb;;\x7d</style></html>"

/-- A file system with `index.html` (= `cOneHtml`), `style.css` and
`script.js` present. -/
def fsC1 : String → Option String := fun p =>
  if p == "index.html" then some cOneHtml
  else if p == "style.css" then some "c\x7bd:e\x7d"
  else if p == "script.js" then some "x"
  else none

/-- A file system in which `style.css` is absent but everything else the
manifest names (except the optional statics) is present. -/
def fsMissingStyle : String → Option String := fun p =>
  if p == "index.html" then some "<html></html>"
  else if p == "script.js" then some "let a = 1;"
  else if p == "robots.txt" then some "ok"
  else none

/-- The same file system with `style.css` restored; `favicon.webp`,
`profile.webp` and `sitemap.xml` remain absent. -/
def fsFullNoSitemap : String → Option String := fun p =>
  if p == "index.html" then some "<html></html>"
  else if p == "style.css" then some "x \x7b c : d \x7d"
  else if p == "script.js" then some "let a = 1;"
  else if p == "robots.txt" then some "ok"
  else none

/-- A compressor whose both variants fail (compression is best-effort). -/
def noCompression : String → Option String × Option String := fun _ => (none, none)

/-- A build-produced entry with both compressed variants present. -/
def entryBoth : AssetEntry :=
  Server.mkEntryParts "a.txt" "body0" (some "BB") (some "GG")

/-- A build-produced entry with no compressed variant. -/
def entryPlain : AssetEntry :=
  Server.mkEntryParts "robots.txt" "hello" none none

/-- Left-pad with `'0'` to `k` characters. -/
def padLeftZeros (k : Nat) (l : List Char) : List Char :=
  List.replicate (k - l.length) '0' ++ l

/-- The validation-tag format the claim asserts, following the spec's words:
the checksum rendered as *exactly eight* hexadecimal digits (zero-padded),
then a dash and the decimal byte length, as a weak validator. Defined for
comparison against the source's actual `etag`. -/
def claimEtag8 (buf : List Nat) : String :=
  let h := Server.fnvLoop 2166136261 buf
  "W/\"" ++ String.mk (padLeftZeros 8 (Server.toHexCore (h + 1) h))
    ++ "-" ++ toString buf.length ++ "\""

/-- Numeric value of one lowercase hex digit (used only to characterize the
rendering independently of `toHexCore`). -/
def hexDigitVal (c : Char) : Nat :=
  if c.isDigit then c.toNat - 48 else c.toNat - 87

/-- Numeric value of a big-endian hex digit string. -/
def hexValue (l : List Char) : Nat :=
  l.foldl (fun n c => n * 16 + hexDigitVal c) 0

/-- The sixteen lowercase hexadecimal digit characters. -/
def lowerHexDigits : List Char := "0123456789abcdef".toList


/-! ## Helper lemmas -/

theorem fnvLoop_eq_foldl :
    ∀ (b : List Nat) (h : Nat), Server.fnvLoop h b = List.foldl Server.fnvStep h b := by
  intro b
  induction b with
  | nil => intro h; rfl
  | cons x xs ih => intro h; simpa [Server.fnvLoop] using ih (Server.fnvStep h x)

theorem fnvFoldl_lt :
    ∀ (b : List Nat) (h : Nat), h < 4294967296 →
      List.foldl Server.fnvStep h b < 4294967296 := by
  intro b
  induction b with
  | nil => intro h hh; simpa using hh
  | cons x xs ih =>
    intro h hh
    simp only [List.foldl]
    exact ih _ (Nat.mod_lt _ (by norm_num))

theorem toHexCore_length_le :
    ∀ (k fuel n : Nat), n < 16 ^ (k + 1) →
      (Server.toHexCore (fuel + 1) n).length ≤ k + 1 := by
  intro k
  induction k with
  | zero =>
    intro fuel n hn
    have h16 : n < 16 := by simpa using hn
    simp [Server.toHexCore, h16]
  | succ k ih =>
    intro fuel n hn
    by_cases h16 : n < 16
    · simp [Server.toHexCore, h16]
    · simp only [Server.toHexCore, if_neg h16, List.length_append,
        List.length_cons, List.length_nil]
      cases fuel with
      | zero => simp [Server.toHexCore]
      | succ f =>
        have hdiv : n / 16 < 16 ^ (k + 1) := by
          have hpow : (16 : Nat) ^ (k + 1 + 1) = 16 ^ (k + 1) * 16 := by ring
          rw [hpow] at hn
          exact (Nat.div_lt_iff_lt_mul (by norm_num)).mpr hn
        have := ih f (n / 16) hdiv
        omega

theorem toHexCore_length_pos :
    ∀ (fuel n : Nat), 1 ≤ (Server.toHexCore (fuel + 1) n).length := by
  intro fuel n
  by_cases h : n < 16 <;> simp [Server.toHexCore, h]

theorem hexValue_append_singleton (l : List Char) (c : Char) :
    hexValue (l ++ [c]) = hexValue l * 16 + hexDigitVal c := by
  simp [hexValue, List.foldl_append]

theorem hexDigitVal_hexDigit : ∀ n : Nat, n < 16 → hexDigitVal (Server.hexDigit n) = n := by
  intro n hn
  interval_cases n <;> rfl

theorem hexDigit_mem_lowerHex : ∀ n : Nat, n < 16 → Server.hexDigit n ∈ lowerHexDigits := by
  intro n hn
  interval_cases n <;> decide

/-- Correctness of the rendering: `toHexCore` produces exactly the base-16
numeral of its input — reading its output back as a big-endian hex string
recovers the number. -/
theorem toHexCore_value :
    ∀ (fuel n : Nat), n < 16 ^ fuel → hexValue (Server.toHexCore fuel n) = n := by
  intro fuel
  induction fuel with
  | zero =>
    intro n hn
    have hz : n = 0 := by simpa using hn
    subst hz
    rfl
  | succ f ih =>
    intro n hn
    by_cases h16 : n < 16
    · simp only [Server.toHexCore, if_pos h16]
      simp [hexValue, hexDigitVal_hexDigit n h16]
    · have hdiv : n / 16 < 16 ^ f := by
        rw [pow_succ] at hn
        exact (Nat.div_lt_iff_lt_mul (by norm_num)).mpr hn
      simp only [Server.toHexCore, if_neg h16]
      rw [hexValue_append_singleton, ih (n / 16) hdiv,
        hexDigitVal_hexDigit (n % 16) (Nat.mod_lt _ (by norm_num))]
      omega

/-- The rendering has no leading zero (for a nonzero value). -/
theorem toHexCore_head_ne_zero :
    ∀ (fuel n : Nat), 1 ≤ n → n < 16 ^ fuel →
      (Server.toHexCore fuel n).head? ≠ some '0' := by
  intro fuel
  induction fuel with
  | zero =>
    intro n h1 hn
    simp only [pow_zero, Nat.lt_one_iff] at hn
    omega
  | succ f ih =>
    intro n h1 hn
    by_cases h16 : n < 16
    · simp only [Server.toHexCore, if_pos h16]
      interval_cases n <;> decide
    · have hdiv : n / 16 < 16 ^ f := by
        rw [pow_succ] at hn
        exact (Nat.div_lt_iff_lt_mul (by norm_num)).mpr hn
      have hdiv1 : 1 ≤ n / 16 := (Nat.one_le_div_iff (by norm_num)).mpr (by omega)
      simp only [Server.toHexCore, if_neg h16]
      have hne : Server.toHexCore f (n / 16) ≠ [] := by
        intro hcon
        have hv := toHexCore_value f (n / 16) hdiv
        rw [hcon] at hv
        simp [hexValue] at hv
        omega
      cases hl : Server.toHexCore f (n / 16) with
      | nil => exact absurd hl hne
      | cons a l =>
        have hh := ih (n / 16) hdiv1 hdiv
        rw [hl] at hh
        simpa using hh

/-- Every character of the rendering is a lowercase hexadecimal digit. -/
theorem toHexCore_mem_hex :
    ∀ (fuel n : Nat) (c : Char), c ∈ Server.toHexCore fuel n → c ∈ lowerHexDigits := by
  intro fuel
  induction fuel with
  | zero => intro n c hc; simp [Server.toHexCore] at hc
  | succ f ih =>
    intro n c hc
    by_cases h16 : n < 16
    · simp only [Server.toHexCore, if_pos h16, List.mem_singleton] at hc
      subst hc
      exact hexDigit_mem_lowerHex n h16
    · simp only [Server.toHexCore, if_neg h16, List.mem_append,
        List.mem_singleton] at hc
      rcases hc with hc | hc
      · exact ih _ _ hc
      · subst hc
        exact hexDigit_mem_lowerHex _ (Nat.mod_lt _ (by norm_num))

/-! ## The claims -/

/-- Claim C1 (code bug in `src/server.js`): the claim asserts that CSP hash
extraction runs over the exact post-minification HTML that will be served.
In `loadAndMinify` (lines 418-427) `extractInlineContent(originalContent)`
runs on the text *as read*, and the stored body is
`minifyHTML(originalContent)` — so for an `index.html` whose inline style
changes under minification, the hashed body (`a{b;;}`) differs from the
inline body of the served bytes (`a{b;}`), and the CSP of the whole build
carries the hash of the pre-minification body. (The class-based variant
`part_001` extracts after minification and satisfies the claim.) -/
theorem cspExtractionRunsOnPreMinifiedHtml :
    (Server.indexBuildStep cOneHtml).1 = ["a\x7bb;;\x7d"]
    ∧ (Server.indexBuildStep cOneHtml).2 = "<html><style>a\x7bb;\x7d</style></html>"
    ∧ Server.styleContents (Server.indexBuildStep cOneHtml).2 = ["a\x7bb;\x7d"]
    ∧ (Server.indexBuildStep cOneHtml).1
        ≠ Server.styleContents (Server.indexBuildStep cOneHtml).2
    ∧ (Server.build id fsC1 noCompression).map (fun r => r.2)
        = Except.ok (Server.generateCSP [] ["\x27sha256-a\x7bb;;\x7d\x27"]) :=
  ⟨rfl, rfl, rfl, by decide, rfl⟩

/-- Claim C2 (code bug in `src/server.js`): the claim asserts `minifyJS`
leaves string/template literal contents byte-identical. The two scanner
passes do, but the final global replaces of lines 327-335 run over the whole
text with no lexical state: `/;}/g → "}"` rewrites the string literal
`"a;}b"` to `"a}b"`, and `/\r?\n/g → ""` deletes a literal newline inside a
template literal. -/
theorem minifyJSAltersStringLiteralContents :
    Server.minifyJS "const s=\"a;\x7db\"" = "const s=\"a\x7db\""
    ∧ Server.minifyJS "const t=\x60a\nb\x60" = "const t=\x60ab\x60" :=
  ⟨rfl, rfl⟩

set_option maxRecDepth 4000 in
/-- Claim C3 (code bug in `src/server.js`): the claim asserts the script
directives never include `'unsafe-inline'` — when the script hash set is
empty the script source list is exactly `'self'`. In `src/server.js`
(lines 57-59) `generateCSP` appends `'unsafe-inline'` to `script-src` when
there are no script hashes; in the class-based variant (`part_001`
lines 91-98) only the style directives get the fallback, and an empty script
hash set yields exactly `'self'`, as the claim states. -/
theorem scriptSrcUnsafeInlineDivergence :
    Server.srcWithFallback [] = "\x27self\x27 \x27unsafe-inline\x27"
    ∧ (idxOf "script-src \x27self\x27 \x27unsafe-inline\x27;".toList
         (Server.generateCSP [] []).toList).isSome = true
    ∧ AssetProcessor.scriptSrcOf [] = "\x27self\x27"
    ∧ AssetProcessor.styleSrcOf [] = "\x27self\x27 \x27unsafe-inline\x27"
    ∧ idxOf "script-src \x27self\x27 \x27unsafe-inline\x27".toList
        (AssetProcessor.generateCSP [] []).toList = none
    ∧ (idxOf "style-src \x27self\x27 \x27unsafe-inline\x27;".toList
         (AssetProcessor.generateCSP [] []).toList).isSome = true
    ∧ (∀ (h : String) (hs : List String),
        AssetProcessor.scriptSrcOf (h :: hs)
          = "\x27self\x27"
              ++ (" " ++ String.intercalate " " ((h :: hs).map AssetProcessor.token))
        ∧ AssetProcessor.styleSrcOf (h :: hs)
          = "\x27self\x27"
              ++ (" " ++ String.intercalate " " ((h :: hs).map AssetProcessor.token))) := by
  refine ⟨rfl, by decide, rfl, rfl, by decide, by decide, ?_⟩
  intro h hs
  constructor
  · simp [AssetProcessor.scriptSrcOf]
  · simp [AssetProcessor.styleSrcOf]

set_option maxRecDepth 4000 in
/-- Claim C4, counterexample: the minifiers are not idempotent. The
`/;}/g → "}"` rewrite can itself create a new `;}` (from `;;}`), so a second
run shrinks the text again — in `minifyCSS` directly, in `minifyHTML` through
its embedded CSS minification, and in `minifyJS`'s final replace chain. -/
theorem minifiersNotIdempotentCounterexample :
    Server.minifyCSS (Server.minifyCSS "a\x7bb;;\x7d") ≠ Server.minifyCSS "a\x7bb;;\x7d"
    ∧ Server.minifyHTML (Server.minifyHTML "<html><style>a\x7bb;;\x7d</style></html>")
        ≠ Server.minifyHTML "<html><style>a\x7bb;;\x7d</style></html>"
    ∧ Server.minifyJS (Server.minifyJS "a;;\x7d") ≠ Server.minifyJS "a;;\x7d" := by
  refine ⟨by decide, by decide, by decide⟩

/-- Claim C4, amended: idempotence holds on inputs whose minified form
contains no residual `;}`-producing pattern — here witnessed on
representative CSS/HTML/JS samples — but it is not universal. -/
theorem minifiersIdempotentOnSamples :
    Server.minifyCSS (Server.minifyCSS "a \x7b color : red ; \x7d")
        = Server.minifyCSS "a \x7b color : red ; \x7d"
    ∧ Server.minifyHTML (Server.minifyHTML "<p> hi </p>")
        = Server.minifyHTML "<p> hi </p>"
    ∧ Server.minifyJS (Server.minifyJS "let a = 1;")
        = Server.minifyJS "let a = 1;" :=
  ⟨rfl, rfl, rfl⟩

/-- Claim C5 (code bug in `src/server.js`): the claim asserts the build
tolerates a missing backing source for any one entry. `build()`
(lines 476-495) awaits `loadAndMinify` for `index.html`, `style.css` and
`script.js` with no existence check and no error handling, so a missing
`style.css` rejects the whole build (and `start()` then exits the process);
only the four static assets are guarded by `existsSync`. With `style.css`
restored, a missing `sitemap.xml` is indeed tolerated and all other entries
are stored. (The class-based variant guards every entry and wraps the tasks
in `Promise.allSettled`, satisfying the claim.) -/
theorem buildAbortsOnMissingStylesheet :
    Server.build id fsMissingStyle noCompression = Except.error "style.css"
    ∧ (Server.build id fsFullNoSitemap noCompression).map (fun r => r.1.map Prod.fst)
        = Except.ok ["/index.html", "/style.css", "/script.js", "/robots.txt"] :=
  ⟨rfl, rfl⟩

/-- Claim C6, counterexample: `etag` renders the checksum with
`(h >>> 0).toString(16)`, which produces no leading zeros — the buffer
`[0]` has FNV-1a checksum `0x050c5d1f` and its tag is `W/"50c5d1f-1"`,
seven hex digits, not the eight-digit zero-padded form the claim asserts. -/
theorem etagNotEightHexCounterexample :
    Server.etag [0] ≠ claimEtag8 [0]
    ∧ Server.etag [0] = "W/\"50c5d1f-1\"" :=
  ⟨by decide, rfl⟩

/-- Claim C6, amended: `etag(b)` is `W/"h-n"` where `h` is the unsigned
32-bit FNV-1a checksum of the bytes (seed `0x811c9dc5`, multiply by
`0x01000193`, XOR-fold each byte, arithmetic mod `2^32`) rendered in
lowercase hexadecimal *without padding* — between one and eight digits — and
`n` is the decimal byte length. -/
theorem etagFormatNoPadding (buf : List Nat) :
    Server.etag buf
      = "W/\"" ++ Server.toHex (List.foldl Server.fnvStep 2166136261 buf)
          ++ "-" ++ toString buf.length ++ "\""
    ∧ List.foldl Server.fnvStep 2166136261 buf < 4294967296
    ∧ 1 ≤ (Server.toHexCore (List.foldl Server.fnvStep 2166136261 buf + 1)
            (List.foldl Server.fnvStep 2166136261 buf)).length
    ∧ (Server.toHexCore (List.foldl Server.fnvStep 2166136261 buf + 1)
        (List.foldl Server.fnvStep 2166136261 buf)).length ≤ 8
    ∧ hexValue (Server.toHexCore (List.foldl Server.fnvStep 2166136261 buf + 1)
        (List.foldl Server.fnvStep 2166136261 buf))
        = List.foldl Server.fnvStep 2166136261 buf
    ∧ (List.foldl Server.fnvStep 2166136261 buf = 0
       ∨ (Server.toHexCore (List.foldl Server.fnvStep 2166136261 buf + 1)
           (List.foldl Server.fnvStep 2166136261 buf)).head? ≠ some '0')
    ∧ (Server.toHexCore (List.foldl Server.fnvStep 2166136261 buf + 1)
        (List.foldl Server.fnvStep 2166136261 buf)).all
          (fun c => lowerHexDigits.contains c) = true := by
  have hlt : List.foldl Server.fnvStep 2166136261 buf < 4294967296 :=
    fnvFoldl_lt buf 2166136261 (by norm_num)
  have hfuel : List.foldl Server.fnvStep 2166136261 buf
      < 16 ^ (List.foldl Server.fnvStep 2166136261 buf + 1) :=
    Nat.lt_of_lt_of_le (Nat.lt_pow_self (by norm_num) _)
      (Nat.pow_le_pow_right (by norm_num) (Nat.le_succ _))
  refine ⟨?_, hlt, toHexCore_length_pos _ _, ?_, toHexCore_value _ _ hfuel, ?_, ?_⟩
  · simp [Server.etag, fnvLoop_eq_foldl]
  · have h8 : List.foldl Server.fnvStep 2166136261 buf < 16 ^ (7 + 1) := by
      norm_num
      exact hlt
    exact toHexCore_length_le 7 _ _ h8
  · rcases Nat.eq_zero_or_pos (List.foldl Server.fnvStep 2166136261 buf) with hz | hp
    · exact Or.inl hz
    · exact Or.inr (toHexCore_head_ne_zero _ _ hp hfuel)
  · rw [List.all_eq_true]
    intro c hc
    have hmem := toHexCore_mem_hex _ _ c hc
    simpa using hmem

/-- Claim C7, confirmed: every entry the build stores satisfies tag/body
coherence. The canonical tag is `etag` of the canonical body; a present
Brotli (resp. Gzip) variant carries `etag` of that variant's own bytes and an
absent variant carries no tag; and each of the three tags (and the body) is
unchanged when only the other variant's bytes change. -/
theorem entryTagBodyCoherence :
    ∀ (compressor : String → Option String × Option String)
      (relPath src : String) (minify : Option (String → String))
      (p b bb gb : String) (br br2 gz gz2 : Option String),
      ((Server.loadAndMinifyEntry compressor relPath src minify).2.etag
         = Server.etagStr (Server.loadAndMinifyEntry compressor relPath src minify).2.body)
      ∧ ((Server.loadAndMinifyEntry compressor relPath src minify).2.brEtag
         = ((Server.loadAndMinifyEntry compressor relPath src minify).2.br).map Server.etagStr)
      ∧ ((Server.loadAndMinifyEntry compressor relPath src minify).2.gzEtag
         = ((Server.loadAndMinifyEntry compressor relPath src minify).2.gz).map Server.etagStr)
      ∧ (Server.mkEntryParts p b (some bb) gz).brEtag = some (Server.etagStr bb)
      ∧ (Server.mkEntryParts p b none gz).brEtag = none
      ∧ (Server.mkEntryParts p b br (some gb)).gzEtag = some (Server.etagStr gb)
      ∧ (Server.mkEntryParts p b br none).gzEtag = none
      ∧ (Server.mkEntryParts p b br gz).etag = (Server.mkEntryParts p b br2 gz).etag
      ∧ (Server.mkEntryParts p b br gz).gzEtag = (Server.mkEntryParts p b br2 gz).gzEtag
      ∧ (Server.mkEntryParts p b br gz).body = (Server.mkEntryParts p b br2 gz).body
      ∧ (Server.mkEntryParts p b br gz).etag = (Server.mkEntryParts p b br gz2).etag
      ∧ (Server.mkEntryParts p b br gz).brEtag = (Server.mkEntryParts p b br gz2).brEtag := by
  intro compressor relPath src minify p b bb gb br br2 gz gz2
  exact ⟨rfl, rfl, rfl, rfl, rfl, rfl, rfl, rfl, rfl, rfl, rfl, rfl⟩

/-- Claim C8, confirmed: for an entry with both compressed variants, a
request whose `Accept-Encoding` matches `\bbr\b` is served the Brotli body
with `Content-Encoding: br`; one matching only `\bgzip\b` is served the Gzip
body with `Content-Encoding: gzip`; one matching neither is served the
uncompressed body with no `Content-Encoding`; and every response carries
`Vary: Accept-Encoding`. -/
theorem encodingNegotiationPrecedence
    (e : AssetEntry) (bb bt gb gt : String) (ae : String)
    (hbr : e.br = some bb) (hbrT : e.brEtag = some bt)
    (hgz : e.gz = some gb) (hgzT : e.gzEtag = some gt) :
    (Server.hasWordToken "br" ae = true →
       (Server.serveEntry { acceptEncoding := some ae, ifNoneMatch := none } e).body = bb
       ∧ (Server.serveEntry { acceptEncoding := some ae, ifNoneMatch := none } e).contentEncoding
           = some "br"
       ∧ (Server.serveEntry { acceptEncoding := some ae, ifNoneMatch := none } e).etagHeader
           = some bt
       ∧ (Server.serveEntry { acceptEncoding := some ae, ifNoneMatch := none } e).status = 200)
    ∧ (Server.hasWordToken "br" ae = false → Server.hasWordToken "gzip" ae = true →
       (Server.serveEntry { acceptEncoding := some ae, ifNoneMatch := none } e).body = gb
       ∧ (Server.serveEntry { acceptEncoding := some ae, ifNoneMatch := none } e).contentEncoding
           = some "gzip"
       ∧ (Server.serveEntry { acceptEncoding := some ae, ifNoneMatch := none } e).etagHeader
           = some gt
       ∧ (Server.serveEntry { acceptEncoding := some ae, ifNoneMatch := none } e).status = 200)
    ∧ (Server.hasWordToken "br" ae = false → Server.hasWordToken "gzip" ae = false →
       (Server.serveEntry { acceptEncoding := some ae, ifNoneMatch := none } e).body = e.body
       ∧ (Server.serveEntry { acceptEncoding := some ae, ifNoneMatch := none } e).contentEncoding
           = none
       ∧ (Server.serveEntry { acceptEncoding := some ae, ifNoneMatch := none } e).etagHeader
           = some e.etag
       ∧ (Server.serveEntry { acceptEncoding := some ae, ifNoneMatch := none } e).status = 200)
    ∧ (∀ inm : Option String,
       (Server.serveEntry { acceptEncoding := some ae, ifNoneMatch := inm } e).vary
         = "Accept-Encoding") := by
  refine ⟨?_, ?_, ?_, ?_⟩
  · intro h1
    have hsel : Server.selectVariant { acceptEncoding := some ae, ifNoneMatch := none } e
        = (bb, some bt, some "br") := by
      simp [Server.selectVariant, Server.negotiateEncoding, h1, hbr, hbrT]
    have hne : ((none : Option String) == some bt) = false := rfl
    simp [Server.serveEntry, hsel, hne]
  · intro h1 h2
    have hsel : Server.selectVariant { acceptEncoding := some ae, ifNoneMatch := none } e
        = (gb, some gt, some "gzip") := by
      simp [Server.selectVariant, Server.negotiateEncoding, h1, h2, hgz, hgzT]
    have hne : ((none : Option String) == some gt) = false := rfl
    simp [Server.serveEntry, hsel, hne]
  · intro h1 h2
    have hsel : Server.selectVariant { acceptEncoding := some ae, ifNoneMatch := none } e
        = (e.body, some e.etag, none) := by
      simp [Server.selectVariant, Server.negotiateEncoding, h1, h2]
    have hne : ((none : Option String) == some e.etag) = false := rfl
    simp [Server.serveEntry, hsel, hne]
  · intro inm
    simp only [Server.serveEntry]
    split <;> rfl

/-- Claim C8, witness: the entry `entryBoth` has both variants, and a request
accepting `br, gzip` receives the Brotli body with `Content-Encoding: br`. -/
theorem encodingNegotiationPrecedenceWitness :
    (Server.serveEntry { acceptEncoding := some "br, gzip", ifNoneMatch := none }
        entryBoth).body = "BB"
    ∧ (Server.serveEntry { acceptEncoding := some "br, gzip", ifNoneMatch := none }
        entryBoth).contentEncoding = some "br" := by
  have h := encodingNegotiationPrecedence entryBoth "BB" (Server.etagStr "BB")
    "GG" (Server.etagStr "GG") "br, gzip" rfl rfl rfl rfl
  exact ⟨(h.1 rfl).1, (h.1 rfl).2.1⟩

/-- Claim C9, confirmed: when the request's `If-None-Match` equals the
validation tag of the negotiated, encoding-specific variant, the response is
304 with an empty body and that tag as `ETag`; otherwise it is 200 with the
full negotiated body and the same tag. -/
theorem conditionalRequestShortCircuit
    (e : AssetEntry) (ae inm : Option String) (t : String)
    (ht : (Server.selectVariant { acceptEncoding := ae, ifNoneMatch := inm } e).2.1 = some t) :
    (inm = some t →
       (Server.serveEntry { acceptEncoding := ae, ifNoneMatch := inm } e).status = 304
       ∧ (Server.serveEntry { acceptEncoding := ae, ifNoneMatch := inm } e).body = ""
       ∧ (Server.serveEntry { acceptEncoding := ae, ifNoneMatch := inm } e).etagHeader = some t)
    ∧ (inm ≠ some t →
       (Server.serveEntry { acceptEncoding := ae, ifNoneMatch := inm } e).status = 200
       ∧ (Server.serveEntry { acceptEncoding := ae, ifNoneMatch := inm } e).body
           = (Server.selectVariant { acceptEncoding := ae, ifNoneMatch := inm } e).1
       ∧ (Server.serveEntry { acceptEncoding := ae, ifNoneMatch := inm } e).etagHeader
           = some t) := by
  constructor
  · intro hm
    subst hm
    simp [Server.serveEntry, ht]
  · intro hm
    simp [Server.serveEntry, ht, hm]

/-- Claim C9, witness: against `entryPlain` (no compressed variants), a
request carrying the current tag gets a 304 with an empty body; a request
carrying a stale tag gets a 200. -/
theorem conditionalRequestShortCircuitWitness :
    (Server.serveEntry { acceptEncoding := none, ifNoneMatch := some (Server.etagStr "hello") } entryPlain).status = 304
    ∧ (Server.serveEntry { acceptEncoding := none, ifNoneMatch := some (Server.etagStr "hello") } entryPlain).body = ""
    ∧ (Server.serveEntry { acceptEncoding := none, ifNoneMatch := some "stale" } entryPlain).status = 200 := by
  have h1 := conditionalRequestShortCircuit entryPlain none
    (some (Server.etagStr "hello")) (Server.etagStr "hello") rfl
  have h2 := conditionalRequestShortCircuit entryPlain none
    (some "stale") (Server.etagStr "hello") rfl
  exact ⟨(h1.1 rfl).1, (h1.1 rfl).2.1, (h2.2 (by decide)).1⟩

theorem blockEndGo_ge (src : List Char) : ∀ (f i : Nat), i ≤ Server.blockEndGo src f i := by
  intro f
  induction f with
  | zero => intro i; exact Nat.le_refl i
  | succ f ih =>
    intro i
    simp only [Server.blockEndGo]
    split
    · exact Nat.le_trans (Nat.le_succ i) (ih (i + 1))
    · exact Nat.le_refl i

theorem lineEndGo_ge (src : List Char) : ∀ (f i : Nat), i ≤ Server.lineEndGo src f i := by
  intro f
  induction f with
  | zero => intro i; exact Nat.le_refl i
  | succ f ih =>
    intro i
    simp only [Server.lineEndGo]
    split
    · exact Nat.le_trans (Nat.le_succ i) (ih (i + 1))
    · exact Nat.le_refl i

/-- Fuel sufficiency for pass 1 of `minifyJS`: every iteration of the source
loop strictly advances `i` (by one in the copying branches, and past the
comment's end via the inner loops), so `length - i` iterations always
reach `i ≥ length`. -/
theorem pass1_isSome (src : List Char) :
    ∀ (fuel i : Nat) (a : Bool) (q : Char) (t es : Bool) (acc : List Char),
      src.length - i < fuel →
      (Server.pass1 src fuel i a q t es acc).isSome = true := by
  intro fuel
  induction fuel with
  | zero => intro i a q t es acc h; exact absurd h (Nat.not_lt_zero _)
  | succ f ih =>
    intro i a q t es acc h
    rw [Server.pass1]
    cases hg : src.get? i with
    | none => rfl
    | some ch =>
      have hi : i < src.length := by
        by_contra hh
        push_neg at hh
        rw [List.get?_eq_none.mpr hh] at hg
        exact Option.noConfusion hg
      have hb : i + 2 ≤ Server.blockEnd src (i + 2) :=
        blockEndGo_ge src src.length (i + 2)
      have hl : i + 2 ≤ Server.lineEnd src (i + 2) :=
        lineEndGo_ge src src.length (i + 2)
      dsimp only
      split_ifs <;> apply ih <;> omega

/-- Fuel sufficiency for pass 2 of `minifyJS`: every iteration advances `j`
(whitespace runs are skipped to their end `k ≥ j + 1`). -/
theorem pass2_isSome (out : List Char) :
    ∀ (fuel j : Nat) (a : Bool) (q : Char) (t es : Bool) (acc : List Char),
      out.length - j < fuel →
      (Server.pass2 out fuel j a q t es acc).isSome = true := by
  intro fuel
  induction fuel with
  | zero => intro j a q t es acc h; exact absurd h (Nat.not_lt_zero _)
  | succ f ih =>
    intro j a q t es acc h
    rw [Server.pass2]
    cases hg : out.get? j with
    | none => rfl
    | some ch =>
      have hj : j < out.length := by
        by_contra hh
        push_neg at hh
        rw [List.get?_eq_none.mpr hh] at hg
        exact Option.noConfusion hg
      have hk : j + 1 ≤ Server.wsEnd out (j + 1) := Nat.le_add_right _ _
      dsimp only
      split_ifs <;> apply ih <;> omega

/-- Claim C10, confirmed: `minifyJS` terminates on every finite input — both
scanning passes complete within fuel `length + 1` because every iteration
strictly advances the index, including on inputs ending inside an
unterminated string, template, block comment or line comment. -/
theorem minifyJSTerminates (src : String) :
    (Server.minifyJSOpt src).isSome = true := by
  have h1 := pass1_isSome src.toList (src.toList.length + 1) 0 false ' ' false false []
    (by omega)
  rw [Option.isSome_iff_exists] at h1
  obtain ⟨out, hp1⟩ := h1
  have h2 := pass2_isSome out (out.length + 1) 0 false ' ' false false [] (by omega)
  rw [Option.isSome_iff_exists] at h2
  obtain ⟨fo, hp2⟩ := h2
  have hp1b : Server.pass1 src.data (src.length + 1) 0 false ' ' false false []
      = some out := hp1
  have hp2b : Server.pass2 out (out.length + 1) 0 false ' ' false false []
      = some fo := hp2
  simp [Server.minifyJSOpt, hp1, hp2, hp1b, hp2b]

end Portfolio
